import Mathlib

/-!
Verification of the comparison engine of `src/Functions.py`
(DeliberativePolling).  Each Python function that a claim touches is
shallowly embedded as a Lean definition over `String`, `Nat` and `ℚ`;
pandas/scipy/statsmodels behaviour at the call sites used by the source
is embedded explicitly.  `Option ℚ` models a float cell that may be
missing (`NaN`); `Except` models library calls that can raise.
-/

namespace DeliberativePolling

/-! ## Comparison Enumerator (`analysis`, Functions.py lines 33–59) -/

/-- Embedding of `itertools.product(groups, times, weights)`:
the rightmost factor varies fastest. -/
def tripleProduct (gs ts ws : List String) : List (String × String × String) :=
  gs.flatMap fun g => ts.flatMap fun t => ws.map fun w => (g, t, w)

/-- Embedding of `itertools.combinations(l, 2)`: all unordered pairs of
distinct positions, in the canonical enumeration order. -/
def combinations2 {α : Type} : List α → List (α × α)
  | [] => []
  | x :: xs => (xs.map fun y => (x, y)) ++ combinations2 xs

/-- Condition dropped by the enumerator's list comprehension:
`comb[0][0] == comb[1][0] and comb[0][2] != comb[1][2]`. -/
def sameGroupDiffWeight
    (c : (String × String × String) × (String × String × String)) : Bool :=
  c.1.1 == c.2.1 && !(c.1.2.2 == c.2.2.2)

/-- Embedding of `sample_comparisons` (Functions.py lines 33–44). -/
def sample_comparisons (gs ts ws : List String) :
    List ((String × String × String) × (String × String × String)) :=
  (combinations2 (tripleProduct gs ts ws)).filter fun c => !(sameGroupDiffWeight c)

/-- Embedding of the `paired` attribute (Functions.py line 59):
`one.group + one.weight == two.group + two.weight`, a comparison of the
two string concatenations. -/
def paired_flag (g1 w1 g2 w2 : String) : Bool :=
  g1 ++ w1 == g2 ++ w2

/-! ## Narrative classification (`plurality`, Functions.py lines 728–739) -/

/-- Embedding of pandas `Series.idxmax` on a label-indexed series of
numbers: the label of the first occurrence of the maximal value. -/
def idxmax : List (String × ℚ) → Option String
  | [] => none
  | (l, v) :: rest =>
      some ((rest.foldl (fun best c => if c.2 > best.2 then c else best) (l, v)).1)

/-- Embedding of `plurality(percentages)` (Functions.py lines 728–739).
The input list models the percentage series after `rstrip("%")`/`float`
parsing; the result is `(value, numeric, kind)`. -/
def plurality (ps : List (String × ℚ)) : Option (String × ℚ × String) :=
  (idxmax ps).bind fun v =>
    (ps.find? fun c => c.1 == v).map fun c =>
      (v, c.2,
        if c.2 / 100 < 1 / 2 then "plurality"
        else if c.2 / 100 > 2 / 3 then "supermajority"
        else "majority")

/-! ## Crosstab Builder (`create_crosstab`, Functions.py lines 441–475) -/

/-- Row of a label-view dataframe (`sample.x.labels`): `noms` looks up a
categorical column's label value, `nums` a numeric (weight) column.
`none` models a missing value. -/
structure LRow where
  noms : String → Option String
  nums : String → Option ℚ

/-- Row index of `pd.crosstab` on a categorical index column: rows are
grouped in the categorical's declared category order `cats`, and
`dropna=True` (nominal mode) drops all-missing rows, i.e. the categories
with no observation in `data`. -/
def crosstab_index (cats : List String) (data : List LRow) (v : String) : List String :=
  cats.filter fun c => data.any fun r => r.noms v == some c

/-- One weighted-count cell of `pd.crosstab(index=data[v],
columns="Total", values=data[w], aggfunc="sum")`: the missing-skipping
sum of the weight column over the rows of category `c`. -/
def crosstab_cell (data : List LRow) (v w : String) (c : String) : ℚ :=
  (data.filterMap fun r => if r.noms v == some c then r.nums w else none).sum

/-- The single-column weighted-count crosstab used both as a block of the
nominal display table and as one chi-square input matrix column:
one cell per present category, in category order. -/
def weighted_count_column (data : List LRow) (v w : String) (cats : List String) :
    List (Option ℚ) :=
  (crosstab_index cats data v).map fun c => some (crosstab_cell data v w c)

/-- Column labels of the nominal-mode `create_crosstab` output after the
final `iloc[:, ::-1]`, which reverses the COLUMN axis of the
single-column (`Total`) table. -/
def nominal_crosstab_columns : List String := List.reverse ["Total"]

/-! ## Crosstab Builder, ordinal mode (`create_crosstab` lines 441–475
together with `ordinal_crosstab` lines 219–253) -/

/-- Row of the data seen by the ordinal crosstab: the ordinal variable's
label, the nominal breakdown variable's label, and the weight value. -/
structure ORow where
  ordLabel : Option String
  nomLabel : Option String
  w : Option ℚ

/-- The `DK/NA` recode (line 451): missing ordinal labels become the
explicit category `DK/NA`, never dropped. -/
def recodedLabel (r : ORow) : String := r.ordLabel.getD "DK/NA"

/-- Membership of a row in a breakdown column of the ordinal crosstab:
`some c` is the column of nominal category `c` and `none` is the margin
`All` column (`margins=True`).  Rows with a missing breakdown value are
excluded from the table, as pandas drops missing group keys. -/
def inColumn (filt : Option String) (r : ORow) : Bool :=
  r.nomLabel.isSome && (match filt with | none => true | some c => r.nomLabel == some c)

/-- Weighted cell sum of the ordinal crosstab before normalization: the
missing-skipping sum of the weights of the rows of the given column
whose recoded ordinal label is `l`. -/
def cellSum (rows : List ORow) (filt : Option String) (l : String) : ℚ :=
  (rows.filterMap fun r =>
    if inColumn filt r && (recodedLabel r == l) then r.w else none).sum

/-- Weighted total of a breakdown column: the denominator used by
`normalize="columns"`. -/
def colTotal (rows : List ORow) (filt : Option String) : ℚ :=
  (rows.filterMap fun r => if inColumn filt r then r.w else none).sum

/-- One cell of the ordinal-mode `create_crosstab` output
(`100 * crosstab.iloc[:, ::-1].fillna(0).reindex(labels)`), for a label
`l` of the reindex list: `100` times the column-normalized weighted
frequency.  `none` models a non-finite float cell: a label that is
neither a category of the data (`cats`) nor the appended `DK/NA` is
reindexed to `NaN`, and a zero column total with a nonzero cell gives an
infinite quotient, while `0/0` is `NaN` and was turned into `0` by
`fillna(0)`.  The column-axis reversal `iloc[:, ::-1]` does not affect
the cell values of a fixed column. -/
def ordinalPercent (cats : List String) (rows : List ORow) (filt : Option String)
    (l : String) : Option ℚ :=
  if l ∈ cats ∨ l = "DK/NA" then
    if colTotal rows filt = 0 then
      (if cellSum rows filt l = 0 then some 0 else none)
    else some (100 * cellSum rows filt l / colTotal rows filt)
  else none

/-- One breakdown column of the ordinal-mode `create_crosstab` output:
the cells down the reindex list `labelsOrdered` (the de-duplicated
metadata label order with `DK/NA` appended, built in `ordinal_crosstab`
lines 220–223). -/
def ordinalPercentColumn (cats labelsOrdered : List String) (rows : List ORow)
    (filt : Option String) : List (Option ℚ) :=
  labelsOrdered.map (ordinalPercent cats rows filt)

/-- Embedding of `.round(1)` on a float cell (`ordinal_crosstab` line
252): numpy rounds half to even. -/
def roundHalfEven (y : ℚ) : ℤ :=
  if y - ⌊y⌋ < 1 / 2 then ⌊y⌋
  else if 1 / 2 < y - ⌊y⌋ then ⌊y⌋ + 1
  else if Even ⌊y⌋ then ⌊y⌋ else ⌊y⌋ + 1

/-- Rounding to one decimal place, half to even. -/
def round1 (q : ℚ) : ℚ := (roundHalfEven (10 * q) : ℚ) / 10

/-! ## Significance Tester, chi-square test (`test_chi`, Functions.py
lines 537–552, with the called scipy `chi2_contingency` behaviour
embedded explicitly) -/

/-- NaN-propagating addition of float cells. -/
def oadd : Option ℚ → Option ℚ → Option ℚ
  | some a, some b => some (a + b)
  | _, _ => none

/-- NaN-propagating sum of a list of float cells (numpy `sum` does not
skip NaN). -/
def osum (l : List (Option ℚ)) : Option ℚ := l.foldr oadd (some 0)

/-- NaN-propagating product of float cells. -/
def omul : Option ℚ → Option ℚ → Option ℚ
  | some a, some b => some (a * b)
  | _, _ => none

/-- Division of float cells; `none` stands for every non-finite
outcome: a missing operand, `0/0` (NaN) or `x/0` (infinite). -/
def odiv : Option ℚ → Option ℚ → Option ℚ
  | some a, some b => if b = 0 then none else some (a / b)
  | _, _ => none

/-- The float comparison `cell < 0`, false on NaN. -/
def isNegCell : Option ℚ → Bool
  | some a => decide (a < 0)
  | none => false

/-- Embedding of scipy `expected_freq` for a two-column matrix:
`expected[i][j] = rowsum[i] * colsum[j] / total`. -/
def chi2_expected (m : List (Option ℚ × Option ℚ)) : List (Option ℚ × Option ℚ) :=
  let c1 := osum (m.map Prod.fst)
  let c2 := osum (m.map Prod.snd)
  let total := oadd c1 c2
  m.map fun r =>
    let rs := oadd r.1 r.2
    (odiv (omul rs c1) total, odiv (omul rs c2) total)

/-- Embedding of the `chi2_contingency` call on a two-column matrix, at
the level of whether the returned p-value is defined (not NaN).  The
raises are scipy's own, in scipy's order: negative observed values,
empty matrix, and a zero element in the internally computed expected
frequencies.  With one row the degrees of freedom are zero and scipy
returns `p = 1.0`; otherwise the p-value is a finite function of the
chi-square statistic and is NaN exactly when some cell is NaN. -/
def chi2_contingency_p_defined (m : List (Option ℚ × Option ℚ)) : Except String Bool :=
  if m.any fun r => isNegCell r.1 || isNegCell r.2 then
    Except.error "All values in observed must be nonnegative."
  else if m.isEmpty then
    Except.error "No data; observed has size 0."
  else if (chi2_expected m).any fun r => r.1 == some 0 || r.2 == some 0 then
    Except.error "The internally computed table of expected frequencies has a zero element."
  else if m.length = 1 then
    Except.ok true
  else
    Except.ok (m.all fun r => r.1.isSome && r.2.isSome)

/-- Structured form of `test_chi`'s return string: `bare v` is the
variable label alone (undefined p-value); `withP v caveat` is
`"<v> (P = <p to 3 decimals>)"`, with the low-expected-count warning
appended when `caveat` is true. -/
inductive ChiReport where
  | bare (v : String)
  | withP (v : String) (caveat : Bool)
  deriving DecidableEq

/-- The caveat condition `np.any(expected < 5)` of line 547, evaluated
on the `expected` ARGUMENT (the full side-two weighted-count crosstab,
before the zero-row drop); the float comparison is false on NaN. -/
def anyLt5 (cells : List (Option ℚ)) : Bool :=
  cells.any fun c => match c with
    | some q => decide (q < 5)
    | none => false

/-- Embedding of `test_chi(variable, observed, expected)` (lines
537–552): stack the two single-column crosstabs (`np.column_stack`
raises on a length mismatch), drop the rows whose two values are both
zero, run `chi2_contingency`, and format the report. -/
def test_chi (vname : String) (observed expected : List (Option ℚ)) :
    Except String ChiReport :=
  if observed.length ≠ expected.length then
    Except.error "column_stack shape mismatch"
  else
    match chi2_contingency_p_defined
        ((observed.zip expected).filter fun r => !(r.1 == some 0 && r.2 == some 0)) with
    | Except.error e => Except.error e
    | Except.ok pdef =>
        if pdef then Except.ok (ChiReport.withP vname (anyLt5 expected))
        else Except.ok (ChiReport.bare vname)

/-! ## Chi-square inputs built by `nominal_crosstab` (Functions.py lines
170–216) -/

/-- One side of a Comparison as `nominal_crosstab` sees it: its weight
scheme name and its label view. -/
structure NSide where
  weight : String
  labels : List LRow

/-- The pair of Subsamples of a Comparison. -/
structure NComparison where
  one : NSide
  two : NSide

/-- The observed matrix passed to `test_chi` (lines 202–207):
side one's weighted counts under `sample.one.weight`. -/
def chi_observed_input (s : NComparison) (v : String) (cats : List String) :
    List (Option ℚ) :=
  weighted_count_column s.one.labels v s.one.weight cats

/-- The `expected` matrix passed to `test_chi` (lines 208–213):
side two's category counts weighted by
`sample.two.labels[sample.one.weight]` — side ONE's weight column. -/
def chi_expected_input (s : NComparison) (v : String) (cats : List String) :
    List (Option ℚ) :=
  weighted_count_column s.two.labels v s.one.weight cats

/-- Side two's displayed crosstab counts
(`create_crosstab(..., weight=sample.two.weight)`, lines 179–185):
weighted by side two's OWN weight scheme. -/
def display_two_counts (s : NComparison) (v : String) (cats : List String) :
    List (Option ℚ) :=
  weighted_count_column s.two.labels v s.two.weight cats

/-! ## Significance Tester, weighted t-test (`test_t` lines 555–603 and
`full_entries` lines 606–651) -/

/-- Row of the values view of a subsample as `test_t` uses it: the
respondent identifier (the index set on line 61–64), the nominal
breakdown label (from the aligned label view), the ordinal variable's
numeric value and the weight column's value. -/
structure TRow where
  rid : Nat
  nomLabel : Option String
  ordv : Option ℚ
  w : Option ℚ

/-- The breakdown filter of `test_t` lines 559–565: `"All"` keeps every
row, any other value keeps the rows whose nominal label equals it (a
missing label never matches, as in pandas). -/
def filterAll (filt : String) (rows : List TRow) : List TRow :=
  if filt == "All" then rows else rows.filter fun r => r.nomLabel == some filt

/-- A complete case of the paired branch of `full_entries`: the four
retained column values of one respondent present on both sides. -/
structure CRow where
  v1 : ℚ
  w1 : ℚ
  v2 : ℚ
  w2 : ℚ

/-- The row index of `pd.concat(..., axis=1)` over the two sides: the
union of the two respondent-identifier indexes (side one's in order,
then side two's new ones; the statistics computed from the joined table
are order-invariant, so the union order is immaterial). -/
def outer_ids (one two : List TRow) : List Nat :=
  one.map TRow.rid ++
    ((two.map TRow.rid).filter fun i => !((one.map TRow.rid).contains i))

/-- The four aligned cells of the concatenated table at one respondent
identifier: each side's ordinal value and weight, `none` when the
respondent is absent from that side or the cell is missing. -/
def joined_row (one two : List TRow) (i : Nat) :
    Option ℚ × Option ℚ × Option ℚ × Option ℚ :=
  ((one.find? fun r => r.rid == i).bind TRow.ordv,
   (one.find? fun r => r.rid == i).bind TRow.w,
   (two.find? fun r => r.rid == i).bind TRow.ordv,
   (two.find? fun r => r.rid == i).bind TRow.w)

/-- The `dropna()` of the concatenated four-column table at one
respondent: the row survives iff all four cells are present. -/
def join_fun (one two : List TRow) (i : Nat) : Option CRow :=
  match joined_row one two i with
  | (some a, some b, some c, some d) => some ⟨a, b, c, d⟩
  | _ => none

/-- Embedding of `full_entries`'s paired branch (lines 607–628):
`pd.concat` the two sides' (ordinal, weight) columns over the outer
index union, `dropna()`, then (via `groupby(level=0, axis=1).nth`) read
the four retained columns off row by row. -/
def complete_cases_paired (one two : List TRow) : List CRow :=
  (outer_ids one two).filterMap (join_fun one two)

/-- Embedding of `full_entries`'s independent branch (lines 630–649):
listwise deletion of each side separately over its own (ordinal value,
weight) pair. -/
def complete_cases_single (rows : List TRow) : List (ℚ × ℚ) :=
  rows.filterMap fun r =>
    match r.ordv, r.w with
    | some v, some w => some (v, w)
    | _, _ => none

/-- Embedding of `DescrStatsW(data, weights).ttest_mean(0)` at the level
of the statistic's determining data: the weighted mean `m`, the weight
sum `W` and the weighted sum `sse` of squared deviations.  The t
statistic is `m / (sqrt(sse / W) / sqrt(W - 1))`, a fixed function of
this triple, and the p-value a fixed function of it and `W - 1` degrees
of freedom; `none` models the NaN outcome of a zero weight sum. -/
def ttest_mean_rep (xw : List (ℚ × ℚ)) : Option (ℚ × ℚ × ℚ) :=
  let W := (xw.map Prod.snd).sum
  if W = 0 then none
  else
    let m := (xw.map fun p => p.1 * p.2).sum / W
    some (m, W, (xw.map fun p => p.2 * (p.1 - m) ^ 2).sum)

/-- Embedding of the paired branch of `test_t` (lines 569–573): the
one-sample test statistic representation computed on the elementwise
difference of the two projected ordinal columns
(`sample.two.ordinal_filtered - sample.one.ordinal_filtered`) with the
projected side-one weights (`sample.one.weights_filtered`). -/
def test_t_paired_rep (one two : List TRow) (filt : String) : Option (ℚ × ℚ × ℚ) :=
  ttest_mean_rep
    ((((complete_cases_paired (filterAll filt one) (filterAll filt two)).map CRow.v2).zipWith
        (fun a b => a - b)
        ((complete_cases_paired (filterAll filt one) (filterAll filt two)).map CRow.v1)).zip
      ((complete_cases_paired (filterAll filt one) (filterAll filt two)).map CRow.w1))

/-- Modelled after the spec's wording of joint listwise deletion for a
paired comparison ("deletion is joint across both sides so row
alignment by respondent identifier is preserved"): for each respondent
of side one in order, keep the aligned quadruple when the respondent
also appears on side two and both sides' (ordinal value, weight) pairs
are fully present.  This is the refinement target compared against the
source-shaped `complete_cases_paired`. -/
def spec_row (two : List TRow) (r : TRow) : Option CRow :=
  match r.ordv, r.w, (two.find? fun s => s.rid == r.rid) with
  | some a, some b, some s =>
      match s.ordv, s.w with
      | some c, some d => some ⟨a, b, c, d⟩
      | _, _ => none
  | _, _, _ => none

/-- Joint listwise deletion as the spec words it, row by row over side
one. -/
def specJointDeletion (one two : List TRow) : List CRow :=
  one.filterMap (spec_row two)

/-- The per-side statistic input of `test_t`: for the paired branch the
projected columns of the joint complete cases, for the independent
branch the side's own complete cases. -/
def side1_pairs (paired : Bool) (one two : List TRow) (filt : String) : List (ℚ × ℚ) :=
  if paired then
    (complete_cases_paired (filterAll filt one) (filterAll filt two)).map
      fun c => (c.v1, c.w1)
  else complete_cases_single (filterAll filt one)

/-- Side two's statistic input of `test_t`. -/
def side2_pairs (paired : Bool) (one two : List TRow) (filt : String) : List (ℚ × ℚ) :=
  if paired then
    (complete_cases_paired (filterAll filt one) (filterAll filt two)).map
      fun c => (c.v2, c.w2)
  else complete_cases_single (filterAll filt two)

/-- `np.average(values, weights)`. -/
def weighted_avg (xw : List (ℚ × ℚ)) : ℚ :=
  (xw.map fun p => p.1 * p.2).sum / (xw.map Prod.snd).sum

/-- The statistic representation of the significance test run by
`test_t` before the mean guard: the one-sample representation on the
differences when paired, the two per-side representations (from which
the Welch statistic is computed) when independent. -/
inductive PStat where
  | pairedStat (rep : Option (ℚ × ℚ × ℚ))
  | indepStat (rep1 rep2 : Option (ℚ × ℚ × ℚ))

/-- The numeric outcome of `test_t` (lines 555–603): the two means and
their difference, `none` embedding the `pd.NA` sentinel assigned when
either side's filtered weight total is zero, plus the significance-test
representation. -/
structure TResult where
  mean1 : Option ℚ
  mean2 : Option ℚ
  meanDifference : Option ℚ
  p : PStat

/-- The significance-test representation computed by `test_t` before
the mean guard: the one-sample representation on the differences with
side-one weights when paired (lines 569–573), the two per-side
representations when independent (lines 576–582). -/
def test_t_prep (paired : Bool) (one two : List TRow) (filt : String) : PStat :=
  if paired then PStat.pairedStat (test_t_paired_rep one two filt)
  else PStat.indepStat (ttest_mean_rep (side1_pairs paired one two filt))
    (ttest_mean_rep (side2_pairs paired one two filt))

/-- Embedding of `test_t(sample, filter, ...)`: filter both sides,
listwise-delete via `full_entries`, run the paired or independent test,
then compute the weighted means only when both filtered weight totals
are nonzero, else the `pd.NA` sentinel.  Every branch returns; the only
operations here are float arithmetic, which yields NaN rather than
raising (warnings are suppressed in Functions.py line 17). -/
def test_t (paired : Bool) (one two : List TRow) (filt : String) : TResult :=
  if ((side1_pairs paired one two filt).map Prod.snd).sum = 0 ∨
      ((side2_pairs paired one two filt).map Prod.snd).sum = 0 then
    ⟨none, none, none, test_t_prep paired one two filt⟩
  else
    ⟨some (weighted_avg (side1_pairs paired one two filt)),
     some (weighted_avg (side2_pairs paired one two filt)),
     some (weighted_avg (side2_pairs paired one two filt)
       - weighted_avg (side1_pairs paired one two filt)),
     test_t_prep paired one two filt⟩

/-! ## Helper lemmas -/

theorem filterMap_cons_sum (f : α → Option ℚ) (a : α) (l : List α) :
    (List.filterMap f (a :: l)).sum = ((f a).getD 0) + (List.filterMap f l).sum := by
  cases h : f a <;> simp [List.filterMap_cons, h]

theorem sum_map_add_distrib (L : List α) (f g : α → ℚ) :
    (L.map fun x => f x + g x).sum = (L.map f).sum + (L.map g).sum := by
  induction L with
  | nil => simp
  | cons a l ih => simp [ih]; ring

theorem sum_single_hit (L : List String) (hnd : L.Nodup) (l0 : String)
    (hmem : l0 ∈ L) (q : ℚ) :
    (L.map fun l => if l0 == l then q else 0).sum = q := by
  induction L with
  | nil => simp at hmem
  | cons a l ih =>
      rcases List.mem_cons.mp hmem with rfl | hl
      · have hz : ∀ x ∈ l.map fun m => if l0 == m then q else 0, x = 0 := by
          intro x hx
          obtain ⟨m, hm, rfl⟩ := List.mem_map.mp hx
          have hne : ¬ (l0 = m) := fun hh => (List.nodup_cons.mp hnd).1 (hh ▸ hm)
          rw [if_neg (by simpa using hne)]
        rw [List.map_cons, List.sum_cons, if_pos (by simp), List.sum_eq_zero hz, add_zero]
      · have hne : ¬ (l0 = a) := fun hh => (List.nodup_cons.mp hnd).1 (hh ▸ hl)
        rw [List.map_cons, List.sum_cons, if_neg (by simpa using hne),
          ih (List.nodup_cons.mp hnd).2 hl, zero_add]

/-- Sum of the raw weighted cells down a duplicate-free list of labels
covering every in-column row's recoded label equals the column total. -/
theorem sum_cellSum_eq_colTotal (L : List String) (rows : List ORow)
    (filt : Option String) (hnd : L.Nodup)
    (hcov : ∀ r ∈ rows, inColumn filt r = true → recodedLabel r ∈ L) :
    (L.map fun l => cellSum rows filt l).sum = colTotal rows filt := by
  induction rows with
  | nil => simp [cellSum, colTotal]
  | cons r rs ih =>
      have hcov' : ∀ x ∈ rs, inColumn filt x = true → recodedLabel x ∈ L :=
        fun x hx => hcov x (List.mem_cons_of_mem _ hx)
      have hcell : ∀ l, cellSum (r :: rs) filt l =
          ((if inColumn filt r && (recodedLabel r == l) then r.w else none).getD 0) +
            cellSum rs filt l :=
        fun l => filterMap_cons_sum _ r rs
      have hcol : colTotal (r :: rs) filt =
          ((if inColumn filt r then r.w else none).getD 0) + colTotal rs filt :=
        filterMap_cons_sum _ r rs
      calc (L.map fun l => cellSum (r :: rs) filt l).sum
          = (L.map fun l =>
              ((if inColumn filt r && (recodedLabel r == l) then r.w else none).getD 0) +
                cellSum rs filt l).sum := by
            exact congrArg List.sum (List.map_congr_left fun l _ => hcell l)
        _ = (L.map fun l =>
              ((if inColumn filt r && (recodedLabel r == l) then r.w else none).getD 0)).sum +
            (L.map fun l => cellSum rs filt l).sum := sum_map_add_distrib _ _ _
        _ = ((if inColumn filt r then r.w else none).getD 0) + colTotal rs filt := by
            rw [ih hcov']
            congr 1
            cases hic : inColumn filt r with
            | true =>
                have hr : recodedLabel r ∈ L := hcov r (List.mem_cons_self r rs) hic
                simp only [Bool.true_and]
                have hterm : ∀ l ∈ L,
                    (if (recodedLabel r == l) = true then r.w else none).getD 0
                      = (if (recodedLabel r == l) = true then r.w.getD 0 else 0) := by
                  intro l _
                  by_cases hb : (recodedLabel r == l) = true
                  · rw [if_pos hb, if_pos hb]
                  · rw [if_neg hb, if_neg hb]; rfl
                rw [List.map_congr_left hterm, sum_single_hit L hnd _ hr]
                simp
            | false =>
                have hz : ∀ x ∈ L.map
                    (fun l => (if (false && (recodedLabel r == l)) = true
                      then r.w else none).getD 0), x = 0 := by
                  intro x hx
                  obtain ⟨l, -, rfl⟩ := List.mem_map.mp hx
                  simp
                rw [List.sum_eq_zero hz]
                simp
        _ = colTotal (r :: rs) filt := (hcol).symm

theorem sum_map_mul_left' (L : List α) (f : α → ℚ) (c : ℚ) :
    (L.map fun x => c * f x).sum = c * (L.map f).sum := by
  induction L with
  | nil => simp
  | cons a l ih => simp [ih, mul_add]

theorem abs_roundHalfEven_sub (y : ℚ) : |(roundHalfEven y : ℚ) - y| ≤ 1 / 2 := by
  have h0 : (⌊y⌋ : ℚ) ≤ y := Int.floor_le y
  have h1 : y < ⌊y⌋ + 1 := Int.lt_floor_add_one y
  unfold roundHalfEven
  by_cases ha : y - ⌊y⌋ < 1 / 2
  · rw [if_pos ha, abs_le]
    constructor <;> linarith
  · rw [if_neg ha]
    push_neg at ha
    by_cases hb : 1 / 2 < y - ⌊y⌋
    · rw [if_pos hb, abs_le]
      constructor <;> push_cast <;> linarith
    · rw [if_neg hb]
      push_neg at hb
      by_cases hc : Even ⌊y⌋
      · rw [if_pos hc, abs_le]
        constructor <;> linarith
      · rw [if_neg hc, abs_le]
        constructor <;> push_cast <;> linarith

theorem abs_round1_sub (q : ℚ) : |round1 q - q| ≤ 1 / 20 := by
  have h := abs_roundHalfEven_sub (10 * q)
  unfold round1
  have e : (roundHalfEven (10 * q) : ℚ) / 10 - q
      = ((roundHalfEven (10 * q) : ℚ) - 10 * q) / 10 := by ring
  rw [e, abs_div, abs_of_pos (by norm_num : (0 : ℚ) < 10)]
  linarith

theorem round1_sum_bound (xs : List ℚ) :
    |(xs.map round1).sum - xs.sum| ≤ (xs.length : ℚ) / 20 := by
  induction xs with
  | nil => simp
  | cons a l ih =>
      have e1 : (List.map round1 (a :: l)).sum - (a :: l).sum
          = (round1 a - a) + ((List.map round1 l).sum - l.sum) := by
        rw [List.map_cons, List.sum_cons, List.sum_cons]; ring
      rw [e1]
      refine le_trans (abs_add _ _) ?_
      have h1 := abs_round1_sub a
      rw [List.length_cons]
      push_cast
      linarith

theorem join_fun_head (r : TRow) (rest two : List TRow) :
    join_fun (r :: rest) two r.rid = spec_row two r := by
  unfold join_fun joined_row spec_row
  have hf : List.find? (fun x => x.rid == r.rid) (r :: rest) = some r :=
    List.find?_cons_of_pos rest (by simp)
  rw [hf]
  cases htwo : two.find? fun s => s.rid == r.rid with
  | none =>
      simp only [Option.some_bind, Option.none_bind]
      cases r.ordv <;> cases r.w <;> rfl
  | some s =>
      simp only [Option.some_bind]
      obtain ⟨sid, snl, sov, sw⟩ := s
      cases r.ordv <;> cases r.w <;> cases sov <;> cases sw <;> rfl

theorem join_fun_tail (r : TRow) (rest two : List TRow) (i : Nat) (hne : r.rid ≠ i) :
    join_fun (r :: rest) two i = join_fun rest two i := by
  unfold join_fun joined_row
  have hf : List.find? (fun x => x.rid == i) (r :: rest)
      = List.find? (fun x => x.rid == i) rest :=
    List.find?_cons_of_neg rest (by simp [hne])
  rw [hf]

theorem filterMap_rid_eq_spec (two : List TRow) :
    ∀ one : List TRow, (one.map TRow.rid).Nodup →
      (one.map TRow.rid).filterMap (join_fun one two) = specJointDeletion one two := by
  intro one
  induction one with
  | nil => intro _; rfl
  | cons r rest ih =>
      intro hnd
      rw [List.map_cons] at hnd
      obtain ⟨hmem, hnd'⟩ := List.nodup_cons.mp hnd
      rw [List.map_cons, List.filterMap_cons, join_fun_head]
      have htail : (rest.map TRow.rid).filterMap (join_fun (r :: rest) two)
          = (rest.map TRow.rid).filterMap (join_fun rest two) :=
        List.filterMap_congr fun i hi =>
          join_fun_tail r rest two i fun he => hmem (he ▸ hi)
      rw [htail, ih hnd']
      unfold specJointDeletion
      rw [List.filterMap_cons]

/-- Refinement of the source-shaped paired complete-case construction by
the joint listwise deletion the spec describes, for a duplicate-free
respondent index on side one. -/
theorem complete_cases_paired_eq_spec (one two : List TRow)
    (h1 : (one.map TRow.rid).Nodup) :
    complete_cases_paired one two = specJointDeletion one two := by
  unfold complete_cases_paired outer_ids
  rw [List.filterMap_append]
  have hext : (((two.map TRow.rid).filter fun i =>
      !((one.map TRow.rid).contains i)).filterMap (join_fun one two)) = [] := by
    rw [List.filterMap_eq_nil_iff]
    intro i hi
    have hni : ¬ i ∈ one.map TRow.rid := by
      have h' := List.of_mem_filter hi
      simpa using h'
    have hfind : (one.find? fun r => r.rid == i) = none := by
      rw [List.find?_eq_none]
      intro x hx hbe
      exact hni (List.mem_map.mpr ⟨x, hx, by simpa using hbe⟩)
    unfold join_fun joined_row
    rw [hfind]
    rfl
  rw [hext, List.append_nil]
  exact filterMap_rid_eq_spec two one h1

theorem zip_diff_w (cc : List CRow) :
    (((cc.map CRow.v2).zipWith (fun a b => a - b) (cc.map CRow.v1)).zip (cc.map CRow.w1))
      = cc.map fun c => (c.v2 - c.v1, c.w1) := by
  rw [List.zipWith_map, List.zipWith_same, List.zip_map']

/-! ## Claim theorems -/

/-- C1, counterexample: the claim that the derived `paired` flag is true
iff the two subsamples share group and weight scheme, for all possible
group, time and weight strings, fails on the code: line 59 compares the
concatenations `group ++ weight`, which identifies
(`"AB"`, `"X"`) with (`"A"`, `"BX"`). -/
theorem C1_counterexample :
    ¬ (∀ g1 t1 w1 g2 t2 w2 : String, t1 = t1 → t2 = t2 →
        (paired_flag g1 w1 g2 w2 = true ↔ (g1 = g2 ∧ w1 = w2))) := by
  intro h
  have hpf : paired_flag "AB" "X" "A" "BX" = true := by decide
  have := ((h "AB" "Pre" "X" "A" "Post" "BX" rfl rfl).mp hpf).1
  exact absurd this (by decide)

/-- C1, amended: the derived `paired` flag is true iff the concatenation
of side one's group and weight strings equals that of side two
(`one.group + one.weight == two.group + two.weight`); this coincides
with sharing group and weight except when the concatenations are
ambiguous. -/
theorem C1_amended (g1 w1 g2 w2 : String) :
    paired_flag g1 w1 g2 w2 = true ↔ g1 ++ w1 = g2 ++ w2 := by
  simp [paired_flag]

/-- C1 witness: the amended concatenation criterion evaluated at a
concrete pair of sides sharing group and weight. -/
theorem C1_amended_witness :
    paired_flag "G" "W" "G" "W" = true ↔ "G" ++ "W" = "G" ++ "W" :=
  C1_amended "G" "W" "G" "W"

/-- C2: the enumerator outputs exactly the unordered 2-combinations of
the Cartesian product of (group, time, weight) triples, kept in
combination enumeration order (sublist), with precisely the pairs whose
two triples share a group but differ in weight scheme removed; in
particular no output pair shares a group while differing in weight. -/
theorem C2_enumerator (gs ts ws : List String) :
    (∀ p, p ∈ sample_comparisons gs ts ws ↔
        p ∈ combinations2 (tripleProduct gs ts ws) ∧
          ¬ (p.1.1 = p.2.1 ∧ p.1.2.2 ≠ p.2.2.2)) ∧
    (sample_comparisons gs ts ws).Sublist (combinations2 (tripleProduct gs ts ws)) ∧
    (∀ p, p ∈ sample_comparisons gs ts ws → ¬ (p.1.1 = p.2.1 ∧ p.1.2.2 ≠ p.2.2.2)) := by
  refine ⟨?_, List.filter_sublist _, ?_⟩
  · intro p
    simp only [sample_comparisons, List.mem_filter, sameGroupDiffWeight,
      Bool.not_eq_true', Bool.and_eq_false_iff, Bool.not_eq_false', beq_iff_eq,
      beq_eq_false_iff_ne, ne_eq]
    constructor
    · rintro ⟨hm, hc⟩
      refine ⟨hm, ?_⟩
      rintro ⟨hg, hw⟩
      rcases hc with hc | hc
      · exact hc hg
      · exact hw hc
    · rintro ⟨hm, hc⟩
      refine ⟨hm, ?_⟩
      by_cases hg : p.1.1 = p.2.1
      · right
        by_contra hw
        exact hc ⟨hg, hw⟩
      · exact Or.inl hg
  · intro p hp
    have hm := List.of_mem_filter hp
    simp only [sameGroupDiffWeight, Bool.not_eq_true', Bool.and_eq_false_iff,
      Bool.not_eq_false', beq_iff_eq, beq_eq_false_iff_ne, ne_eq] at hm
    rintro ⟨hg, hw⟩
    rcases hm with hc | hc
    · exact hc hg
    · exact hw hc

/-- C2 witness: the no-shared-group-different-weight conclusion at a
concrete comparison produced by the enumerator. -/
theorem C2_enumerator_witness :
    ¬ (((("A", "T1", "U"), ("A", "T2", "U")) :
          (String × String × String) × (String × String × String)).1.1
        = ((("A", "T1", "U"), ("A", "T2", "U")) :
          (String × String × String) × (String × String × String)).2.1 ∧
      ((("A", "T1", "U"), ("A", "T2", "U")) :
          (String × String × String) × (String × String × String)).1.2.2
        ≠ ((("A", "T1", "U"), ("A", "T2", "U")) :
          (String × String × String) × (String × String × String)).2.2.2) :=
  (C2_enumerator ["A"] ["T1", "T2"] ["U"]).2.2
    (("A", "T1", "U"), ("A", "T2", "U")) (by decide)

/-- C7, counterexample: with groups `Control`/`Treatment`, times
`Pre`/`Post` and weight schemes `Unweighted` plus one detected weight
field, the enumerator does not produce 2 comparisons: the Cartesian
product has 8 triples, giving 28 unordered pairs, of which 8 are
excluded by the same-group-different-weight rule. -/
theorem C7_counterexample :
    (sample_comparisons ["Control", "Treatment"] ["Pre", "Post"]
        ["Unweighted", "Weight1"]).length ≠ 2 := by
  decide

/-- C7, amended: in the two-group, two-time, two-weight-scheme scenario
the enumerator produces exactly 20 comparisons under the
same-group-different-weight exclusion rule. -/
theorem C7_amended :
    (sample_comparisons ["Control", "Treatment"] ["Pre", "Post"]
        ["Unweighted", "Weight1"]).length = 20 := by
  decide

/-- C9, counterexample: the classification boundary in the code is the
share 2/3 of the total, not 66.7 percent: at a dominant share of exactly
66.7 the code classifies `supermajority`, while the claim (50 to 66.7
inclusive is `majority`) requires `majority`. -/
theorem C9_counterexample :
    ¬ (∀ ps v n k, plurality ps = some (v, n, k) →
        ((k = "plurality" ↔ n < 50) ∧
         (k = "majority" ↔ 50 ≤ n ∧ n ≤ 667 / 10) ∧
         (k = "supermajority" ↔ 667 / 10 < n))) := by
  intro h
  have hp : plurality [("A", 667 / 10)] = some ("A", 667 / 10, "supermajority") := by
    have h1 : ¬ ((667 : ℚ) / 10 / 100 < 1 / 2) := by norm_num
    have h2 : (667 : ℚ) / 10 / 100 > 2 / 3 := by norm_num
    simp [plurality, idxmax, List.find?, h1, h2]
    norm_num
  have := ((h _ _ _ _ hp).2.2).mp rfl
  exact absurd this (by norm_num)

/-- C9, amended: for every distribution, the dominant category is
classified `plurality` iff its share is below 50, `majority` iff the
share is at least 50 and at most 200/3 (66.666... percent), and
`supermajority` iff the share exceeds 200/3. -/
theorem C9_amended (ps : List (String × ℚ)) (v : String) (n : ℚ) (k : String)
    (h : plurality ps = some (v, n, k)) :
    (k = "plurality" ↔ n < 50) ∧
    (k = "majority" ↔ 50 ≤ n ∧ n ≤ 200 / 3) ∧
    (k = "supermajority" ↔ 200 / 3 < n) := by
  unfold plurality at h
  rcases hidx : idxmax ps with - | v0
  · rw [hidx] at h
    exact absurd h (by simp)
  rw [hidx] at h
  simp only [Option.some_bind] at h
  rcases hfind : ps.find? (fun c => c.1 == v0) with - | c
  · rw [hfind] at h
    exact absurd h (by simp)
  rw [hfind] at h
  simp only [Option.map_some', Option.some.injEq, Prod.mk.injEq] at h
  obtain ⟨-, rfl, rfl⟩ := h
  by_cases h1 : c.2 / 100 < 1 / 2
  · rw [if_pos h1]
    refine ⟨⟨fun _ => by linarith, fun _ => rfl⟩, ?_, ?_⟩
    · constructor
      · intro hk; exact absurd hk (by decide)
      · rintro ⟨h50, -⟩; linarith
    · constructor
      · intro hk; exact absurd hk (by decide)
      · intro h23; linarith
  rw [if_neg h1]
  by_cases h2 : c.2 / 100 > 2 / 3
  · rw [if_pos h2]
    refine ⟨?_, ?_, ⟨fun _ => by linarith, fun _ => rfl⟩⟩
    · constructor
      · intro hk; exact absurd hk (by decide)
      · intro hlt; linarith
    · constructor
      · intro hk; exact absurd hk (by decide)
      · rintro ⟨-, hle⟩; linarith
  rw [if_neg h2]
  push_neg at h1 h2
  refine ⟨?_, ⟨fun _ => ⟨by linarith, by linarith⟩, fun _ => rfl⟩, ?_⟩
  · constructor
    · intro hk; exact absurd hk (by decide)
    · intro hlt; linarith
  · constructor
    · intro hk; exact absurd hk (by decide)
    · intro h23; linarith

/-- C9 witness: the amended classification applied to a concrete
distribution with a dominant share of 55 percent, classified `majority`. -/
theorem C9_amended_witness :
    plurality [("A", 55), ("B", 45)] = some ("A", 55, "majority") ∧
    ("majority" = "majority" ↔ (50 : ℚ) ≤ 55 ∧ (55 : ℚ) ≤ 200 / 3) := by
  have hp : plurality [("A", 55), ("B", 45)] = some ("A", 55, "majority") := by
    have h1 : ¬ ((55 : ℚ) / 100 < 1 / 2) := by norm_num
    have h2 : ¬ ((55 : ℚ) / 100 > 2 / 3) := by norm_num
    have h3 : ¬ ((45 : ℚ) > 55) := by norm_num
    simp [plurality, idxmax, List.find?, h1, h2, h3]
    norm_num
  exact ⟨hp, (C9_amended [("A", 55), ("B", 45)] "A" 55 "majority" hp).2.1⟩

/-- C5, counterexample: the claim that every breakdown column's reported
percentages sum to 100 up to rounding fails on a breakdown category with
zero weighted total (here a category `F` with no respondents): every
cell of that column is reported as 0 and the column sums to 0. -/
theorem C5_counterexample :
    (∀ x ∈ ordinalPercentColumn ["Lo"] ["Lo", "DK/NA"]
        [⟨some "Lo", some "M", some 1⟩] (some "F"), x = some 0) ∧
    ((ordinalPercentColumn ["Lo"] ["Lo", "DK/NA"]
        [⟨some "Lo", some "M", some 1⟩] (some "F")).map fun o => o.getD 0).sum = 0 ∧
    (0 : ℚ) ≠ 100 := by
  have hcol : ordinalPercentColumn ["Lo"] ["Lo", "DK/NA"]
      [⟨some "Lo", some "M", some 1⟩] (some "F") = [some 0, some 0] := by
    simp [ordinalPercentColumn, ordinalPercent, colTotal, cellSum, inColumn,
      recodedLabel, List.filterMap]
  rw [hcol]
  refine ⟨?_, by norm_num, by norm_num⟩
  intro x hx
  simp only [List.mem_cons, List.not_mem_nil, or_false] at hx
  rcases hx with rfl | rfl <;> rfl

/-- C5, amended: in every ordinal crosstab, each breakdown column
(including the margin `All` column) whose weighted total is nonzero has
all its percentage cells defined; the cells sum to exactly 100 before
rounding; and after the one-decimal rounding of `ordinal_crosstab` line
252 the reported column sums to 100 up to the accumulated rounding
error.  The hypotheses say that the metadata reindex labels are
categories of the data column, that every observed ordinal label is a
metadata label, that the label list is duplicate-free and does not
itself contain `DK/NA`, and that the column's weighted total is
nonzero. -/
theorem C5_amended (cats labels : List String) (rows : List ORow) (filt : Option String)
    (hsub : ∀ l ∈ labels, l ∈ cats)
    (hobs : ∀ r ∈ rows, ∀ s, r.ordLabel = some s → s ∈ labels)
    (hnd : labels.Nodup) (hdk : "DK/NA" ∉ labels)
    (hT : colTotal rows filt ≠ 0) :
    (∀ x ∈ ordinalPercentColumn cats (labels ++ ["DK/NA"]) rows filt, x.isSome) ∧
    ((ordinalPercentColumn cats (labels ++ ["DK/NA"]) rows filt).map
        fun o => o.getD 0).sum = 100 ∧
    |((ordinalPercentColumn cats (labels ++ ["DK/NA"]) rows filt).map
        fun o => round1 (o.getD 0)).sum - 100| ≤ ((labels.length : ℚ) + 1) / 20 := by
  have hcells : ∀ l ∈ labels ++ ["DK/NA"], ordinalPercent cats rows filt l
      = some (100 * cellSum rows filt l / colTotal rows filt) := by
    intro l hl
    have hmem : l ∈ cats ∨ l = "DK/NA" := by
      rcases List.mem_append.mp hl with h | h
      · exact Or.inl (hsub l h)
      · exact Or.inr (by simpa using h)
    unfold ordinalPercent
    rw [if_pos hmem, if_neg hT]
  have hnd2 : (labels ++ ["DK/NA"]).Nodup := by
    rw [List.nodup_append]
    refine ⟨hnd, List.nodup_singleton _, ?_⟩
    intro a ha hb
    exact hdk ((List.mem_singleton.mp hb) ▸ ha)
  have hcov : ∀ r ∈ rows, inColumn filt r = true → recodedLabel r ∈ labels ++ ["DK/NA"] := by
    intro r hr _
    unfold recodedLabel
    cases hro : r.ordLabel with
    | none => simp
    | some s => simpa using Or.inl (hobs r hr s hro)
  have hsum0 : ((labels ++ ["DK/NA"]).map fun l => cellSum rows filt l).sum
      = colTotal rows filt := sum_cellSum_eq_colTotal _ _ _ hnd2 hcov
  have hgetD : ((ordinalPercentColumn cats (labels ++ ["DK/NA"]) rows filt).map
      fun o => o.getD 0) = (labels ++ ["DK/NA"]).map
        fun l => (100 / colTotal rows filt) * cellSum rows filt l := by
    unfold ordinalPercentColumn
    rw [List.map_map]
    refine List.map_congr_left fun l hl => ?_
    rw [Function.comp_apply, hcells l hl, Option.getD_some]
    field_simp
  have hsum : ((ordinalPercentColumn cats (labels ++ ["DK/NA"]) rows filt).map
      fun o => o.getD 0).sum = 100 := by
    rw [hgetD, sum_map_mul_left', hsum0, div_mul_cancel₀ _ hT]
  refine ⟨?_, hsum, ?_⟩
  · intro x hx
    obtain ⟨l, hl, rfl⟩ := List.mem_map.mp hx
    rw [hcells l hl]
    rfl
  · have hlen : ((ordinalPercentColumn cats (labels ++ ["DK/NA"]) rows filt).map
        fun o => o.getD 0).length = labels.length + 1 := by
      simp [ordinalPercentColumn]
    have hb := round1_sum_bound ((ordinalPercentColumn cats
      (labels ++ ["DK/NA"]) rows filt).map fun o => o.getD 0)
    rw [hsum, hlen] at hb
    have e2 : ((ordinalPercentColumn cats (labels ++ ["DK/NA"]) rows filt).map
        fun o => round1 (o.getD 0))
        = (((ordinalPercentColumn cats (labels ++ ["DK/NA"]) rows filt).map
            fun o => o.getD 0).map round1) := by
      rw [List.map_map]
      rfl
    rw [e2]
    calc |((((ordinalPercentColumn cats (labels ++ ["DK/NA"]) rows filt).map
          fun o => o.getD 0).map round1)).sum - 100|
        ≤ ((labels.length + 1 : ℕ) : ℚ) / 20 := hb
      _ = ((labels.length : ℚ) + 1) / 20 := by push_cast; ring

/-- C5 witness: the amended column-sum property at a concrete ordinal
crosstab column with weighted total 4: the reported percentages are
25, 75 and 0 and sum to 100. -/
theorem C5_amended_witness :
    ((ordinalPercentColumn ["Lo", "Hi"] (["Lo", "Hi"] ++ ["DK/NA"])
        [⟨some "Lo", some "M", some 1⟩, ⟨some "Hi", some "M", some 3⟩]
        (some "M")).map fun o => o.getD 0).sum = 100 := by
  refine (C5_amended ["Lo", "Hi"] ["Lo", "Hi"]
      [⟨some "Lo", some "M", some 1⟩, ⟨some "Hi", some "M", some 3⟩]
      (some "M") ?_ ?_ ?_ ?_ ?_).2.1
  · intro l hl; exact hl
  · intro r hr s hs
    simp only [List.mem_cons, List.not_mem_nil, or_false] at hr
    rcases hr with rfl | rfl <;> simp_all
  · decide
  · decide
  · simp [colTotal, inColumn, List.filterMap]
    norm_num

/-- C8, counterexample: the nominal crosstab does not emit the
variable's categories in reverse of the declared category order: with
categories `A`, `B` both observed, the row index is `A`, `B` while the
reversal of the declared order is `B`, `A`.  The `iloc[:, ::-1]` of
`create_crosstab` line 473 reverses the column axis, not the rows. -/
theorem C8_counterexample :
    crosstab_index ["A", "B"]
        [⟨fun _ => some "A", fun _ => none⟩, ⟨fun _ => some "B", fun _ => none⟩] "V"
      = ["A", "B"] ∧ (["A", "B"] : List String).reverse ≠ ["A", "B"] := by
  constructor
  · decide
  · decide

/-- C8, amended: in nominal mode the Crosstab Builder emits the
variable's categories in the categorical's declared order restricted to
the observed ones — an order-preserving sublist, not a reversal — and
the final `iloc[:, ::-1]` reverses only the column axis, which for the
single `Total` column is the identity. -/
theorem C8_amended (cats : List String) (data : List LRow) (v : String) :
    (crosstab_index cats data v).Sublist cats ∧
    (∀ c, c ∈ crosstab_index cats data v ↔ c ∈ cats ∧ ∃ r ∈ data, r.noms v = some c) ∧
    nominal_crosstab_columns = ["Total"] := by
  refine ⟨List.filter_sublist _, fun c => ?_, rfl⟩
  simp [crosstab_index, List.mem_filter, List.any_eq_true]

/-- C3: for every paired comparison (both sides extract their own
weight column, as the code does when the spec's pairing condition —
same group and weight scheme — holds) and every breakdown filter value
including `All`, the reported t statistic representation is the
one-sample weighted test of the per-respondent differences (side two
minus side one) against zero using side one's weights, computed after
joint listwise deletion over both sides' (ordinal value, weight) pairs
aligned by the respondent identifier.  The respondent indexes are
duplicate-free, as pandas requires for the axis-1 concatenation. -/
theorem C3_paired_ttest (one two : List TRow) (filt : String)
    (h1 : ((filterAll filt one).map TRow.rid).Nodup)
    (_h2 : ((filterAll filt two).map TRow.rid).Nodup) :
    test_t_paired_rep one two filt =
      ttest_mean_rep ((specJointDeletion (filterAll filt one) (filterAll filt two)).map
        fun c => (c.v2 - c.v1, c.w1)) := by
  unfold test_t_paired_rep
  rw [zip_diff_w, complete_cases_paired_eq_spec _ _ h1]

/-- C3 witness: the paired test representation at a concrete pair of
sides, where respondent 2 is listwise-deleted (absent from side two)
and the surviving difference is 4 − 2 with side-one weight 1. -/
theorem C3_paired_ttest_witness :
    test_t_paired_rep
        [⟨1, some "X", some 2, some 1⟩, ⟨2, none, some 5, some 1⟩]
        [⟨1, some "X", some 4, some 1⟩] "All"
      = ttest_mean_rep ((specJointDeletion
          (filterAll "All" [⟨1, some "X", some 2, some 1⟩, ⟨2, none, some 5, some 1⟩])
          (filterAll "All" [⟨1, some "X", some 4, some 1⟩])).map
            fun c => (c.v2 - c.v1, c.w1)) :=
  C3_paired_ttest _ _ "All" (by decide) (by decide)

/-- C4, counterexample: the low-expected-count caveat is not governed by
the expected cell counts of the chi-square test.  For the stacked matrix
`[[10, 0], [0, 10]]` every internally computed expected frequency is
exactly 5 — none is below 5 — yet the code appends the caveat, because
line 547 evaluates `np.any(expected < 5)` on the `expected` ARGUMENT
(side two's weighted counts, here containing 0). -/
theorem C4_counterexample :
    test_chi "Q" [some 10, some 0] [some 0, some 10]
      = Except.ok (ChiReport.withP "Q" true) ∧
    chi2_expected (([some 10, some 0].zip [some (0 : ℚ), some 10]).filter
        fun r => !(r.1 == some 0 && r.2 == some 0))
      = [(some 5, some 5), (some 5, some 5)] ∧
    ¬ ((5 : ℚ) < 5) := by
  refine ⟨?_, ?_, by norm_num⟩
  · norm_num [test_chi, chi2_contingency_p_defined, chi2_expected, osum, oadd, omul,
      odiv, isNegCell, anyLt5]
  · norm_num [chi2_expected, osum, oadd, omul, odiv]

/-- C4, amended: `test_chi` stacks the two equal-length single-column
crosstabs, drops the rows whose two values are both zero, and — when
`chi2_contingency` returns — reports the formatted p-value string
(`withP`) when the p-value is defined and the bare variable label when
it is not; the caveat flag is true iff some cell of the `expected`
ARGUMENT (side two's full weighted-count column, checked before the
zero-row drop) is below 5, not a cell of the test's internal expected
frequencies. -/
theorem C4_amended (vname : String) (observed expected : List (Option ℚ)) (pdef : Bool)
    (hlen : observed.length = expected.length)
    (hp : chi2_contingency_p_defined ((observed.zip expected).filter
        fun r => !(r.1 == some 0 && r.2 == some 0)) = Except.ok pdef) :
    test_chi vname observed expected
      = Except.ok (if pdef then ChiReport.withP vname (anyLt5 expected)
          else ChiReport.bare vname) ∧
    (anyLt5 expected = true ↔ ∃ q : ℚ, some q ∈ expected ∧ q < 5) := by
  constructor
  · unfold test_chi
    rw [if_neg (by simp [hlen]), hp]
    cases pdef <;> rfl
  · unfold anyLt5
    rw [List.any_eq_true]
    constructor
    · rintro ⟨c, hc, hm⟩
      cases c with
      | none => simp at hm
      | some q => exact ⟨q, hc, by simpa using hm⟩
    · rintro ⟨q, hq, hlt⟩
      exact ⟨some q, hq, by simpa using hlt⟩

/-- C4 witness: the amended report shape at a concrete input with a
defined p-value and a sub-5 cell in the `expected` argument. -/
theorem C4_amended_witness :
    test_chi "W" [some 10, some 0] [some 0, some 10]
      = Except.ok (if true then ChiReport.withP "W" (anyLt5 [some (0 : ℚ), some 10])
          else ChiReport.bare "W") := by
  have hp : chi2_contingency_p_defined (([some 10, some 0].zip
      [some (0 : ℚ), some 10]).filter fun r => !(r.1 == some 0 && r.2 == some 0))
      = Except.ok true := by
    norm_num [chi2_contingency_p_defined, chi2_expected, osum, oadd, omul, odiv, isNegCell]
  exact (C4_amended "W" [some 10, some 0] [some 0, some 10] true rfl hp).1

/-- C6, counterexample: the chi-square test does not tolerate a side
whose weighted counts are all zero: with observed `[10]` and side-two
counts `[0]`, the internally computed expected frequencies contain a
zero and scipy's `chi2_contingency` raises a ValueError instead of
returning a sentinel. -/
theorem C6_counterexample :
    test_chi "V" [some 10] [some 0]
      = Except.error
          "The internally computed table of expected frequencies has a zero element." := by
  norm_num [test_chi, chi2_contingency_p_defined, chi2_expected, osum, oadd, omul, odiv,
    isNegCell]

/-- C6, amended: the weighted t-test returns a result for every input —
the `pd.NA` sentinel means exactly when either side's filtered weight
total is zero, the weighted means otherwise (its float path never
raises) — while the chi-square test raises a ValueError from
`chi2_contingency` when the zero-row-dropped matrix has a zero expected
frequency, for example when one side's weighted counts are all zero. -/
theorem C6_amended :
    (∀ (paired : Bool) (one two : List TRow) (filt : String),
        (((side1_pairs paired one two filt).map Prod.snd).sum = 0 ∨
         ((side2_pairs paired one two filt).map Prod.snd).sum = 0) →
        (test_t paired one two filt).mean1 = none ∧
        (test_t paired one two filt).mean2 = none ∧
        (test_t paired one two filt).meanDifference = none) ∧
    (∀ (paired : Bool) (one two : List TRow) (filt : String),
        ¬ (((side1_pairs paired one two filt).map Prod.snd).sum = 0 ∨
           ((side2_pairs paired one two filt).map Prod.snd).sum = 0) →
        (test_t paired one two filt).mean1
          = some (weighted_avg (side1_pairs paired one two filt)) ∧
        (test_t paired one two filt).mean2
          = some (weighted_avg (side2_pairs paired one two filt)) ∧
        (test_t paired one two filt).meanDifference
          = some (weighted_avg (side2_pairs paired one two filt)
              - weighted_avg (side1_pairs paired one two filt))) ∧
    test_chi "U" [some 10, some 10] [some 0, some 0]
      = Except.error
          "The internally computed table of expected frequencies has a zero element." := by
  refine ⟨?_, ?_, ?_⟩
  · intro paired one two filt h
    unfold test_t
    rw [if_pos h]
    exact ⟨rfl, rfl, rfl⟩
  · intro paired one two filt h
    unfold test_t
    rw [if_neg h]
    exact ⟨rfl, rfl, rfl⟩
  · norm_num [test_chi, chi2_contingency_p_defined, chi2_expected, osum, oadd, omul,
      odiv, isNegCell]

/-- C6 witness: the sentinel branch of the amended statement at a
concrete degenerate input (both sides empty, so both weight totals are
zero): the means are the `pd.NA` sentinel and nothing is raised. -/
theorem C6_amended_witness :
    (test_t false ([] : List TRow) ([] : List TRow) "All").mean1 = none :=
  (C6_amended.1 false [] [] "All" (Or.inl rfl)).1

/-- C10: both columns of the chi-square contingency input are weighted
by subsample one's weight field.  The `expected` matrix handed to
`test_chi` is side two's counts under side ONE's weight column (line
211), it is invariant under changing side two's weight scheme, while
side two's DISPLAYED crosstab block uses side two's own weight; at a
concrete comparison whose two sides use different weight schemes the
two disagree (counts 1 under `W1` against 2 under `W2`). -/
theorem C10_chi_weighting :
    (∀ (s : NComparison) (v : String) (cats : List String),
        chi_expected_input s v cats
          = weighted_count_column s.two.labels v s.one.weight cats) ∧
    (∀ (s : NComparison) (v : String) (cats : List String) (w' : String),
        chi_expected_input ⟨s.one, ⟨w', s.two.labels⟩⟩ v cats
          = chi_expected_input s v cats) ∧
    (∀ (s : NComparison) (v : String) (cats : List String),
        display_two_counts s v cats
          = weighted_count_column s.two.labels v s.two.weight cats) ∧
    (chi_expected_input
        ⟨⟨"W1", []⟩, ⟨"W2", [⟨fun c => if c = "V" then some "A" else none,
            fun c => if c = "W1" then some 1 else if c = "W2" then some 2 else none⟩]⟩⟩
        "V" ["A"] = [some 1] ∧
     display_two_counts
        ⟨⟨"W1", []⟩, ⟨"W2", [⟨fun c => if c = "V" then some "A" else none,
            fun c => if c = "W1" then some 1 else if c = "W2" then some 2 else none⟩]⟩⟩
        "V" ["A"] = [some 2] ∧
     ([some (1 : ℚ)] : List (Option ℚ)) ≠ [some 2]) := by
  refine ⟨fun s v cats => rfl, fun s v cats w' => rfl, fun s v cats => rfl, ?_, ?_, ?_⟩
  · simp [chi_expected_input, weighted_count_column, crosstab_index, crosstab_cell,
      List.filterMap]
  · simp [display_two_counts, weighted_count_column, crosstab_index, crosstab_cell,
      List.filterMap]
  · norm_num

/-- C8 witness: the amended column fact extracted at a concrete
(empty) crosstab: the column labels after the reversal are `Total`. -/
theorem C8_amended_witness : nominal_crosstab_columns = ["Total"] :=
  (C8_amended [] [] "V").2.2

/-- C10 witness: the chi `expected` input equation extracted at a
concrete comparison whose sides carry different weight scheme names. -/
theorem C10_chi_weighting_witness :
    chi_expected_input ⟨⟨"W1", []⟩, ⟨"W2", []⟩⟩ "V" []
      = weighted_count_column (NSide.mk "W2" []).labels "V" "W1" [] :=
  C10_chi_weighting.1 ⟨⟨"W1", []⟩, ⟨"W2", []⟩⟩ "V" []

end DeliberativePolling
